import Mathlib

/-!
Verification development for the cap-std-ext filesystem extension layer.

The Rust sources (src/dirext.rs, src/tempfile.rs, src/rootdir.rs,
src/xattrs.rs) are shallowly embedded: directories become association
lists from entry names to nodes, fallible operations return
`Except IoError`, and stateful operations thread the directory tree
explicitly.  External collaborators that the crate merely invokes
(the cap-std `Dir` primitives, the `cap_tempfile::TempFile` protocol and
the kernel's `openat2` resolution modes) are modelled from their
documented semantics; each such definition carries a comment saying so.
-/

/-- The subset of `std::io::ErrorKind` values this crate distinguishes. -/
inductive ErrorKind where
  | notFound
  | alreadyExists
  | invalidInput
  | permissionDenied
  | unsupported
  | other
deriving DecidableEq

/-- A `std::io::Error`: a kind plus a message. -/
structure IoError where
  kind : ErrorKind
  msg : String
deriving DecidableEq

/-- The rustix-level errno values the embedded code matches on before
converting to `IoError` (`src/tempfile.rs` matches `OPNOTSUPP` and `EXIST`). -/
inductive Errno where
  | opnotsupp
  | exist
  | oth (k : ErrorKind) (m : String)
deriving DecidableEq

/-- Conversion of an errno into a `std::io::Error`, as `.into()` does. -/
def Errno.toIo : Errno → IoError
  | .opnotsupp => ⟨.unsupported, "Operation not supported"⟩
  | .exist => ⟨.alreadyExists, "File exists"⟩
  | .oth k m => ⟨k, m⟩

/-- A regular file: its Unix access mode and its content bytes. -/
structure FileObj where
  perm : Nat
  data : List Nat
deriving DecidableEq

/-- A filesystem node.  Directories carry an access mode, a device id
(for mount-boundary checks) and their entries; symlink targets are
modelled as a single entry name resolved in the containing directory. -/
inductive Node where
  | file (f : FileObj)
  | symlink (target : String)
  | dir (perm dev : Nat) (entries : List (String × Node))

/-- The entry list of one directory. -/
abbrev DirT := List (String × Node)

/-- `Metadata::is_dir`. -/
def Node.isDir : Node → Bool
  | .dir _ _ _ => true
  | _ => false

/-- `Metadata::is_file` (true only for regular files, not symlinks). -/
def Node.isFile : Node → Bool
  | .file _ => true
  | _ => false

/-- `Metadata::permissions` (symlinks report mode 0o777 on Linux). -/
def Node.permissions : Node → Nat
  | .file f => f.perm
  | .dir p _ _ => p
  | .symlink _ => 0o777

/-- Look an entry name up in a directory (directory entries have unique names). -/
def dlookup : DirT → String → Option Node
  | [], _ => none
  | (k, v) :: rest, name => if name = k then some v else dlookup rest name

/-- Bind a name in a directory, replacing an existing entry of that name. -/
def dinsert : DirT → String → Node → DirT
  | [], name, n => [(name, n)]
  | (k, v) :: rest, name, n =>
    if name = k then (name, n) :: rest else (k, v) :: dinsert rest name n

/-- `unlinkat`/rename-source removal: drop the entry of the given name. -/
def dremove : DirT → String → DirT
  | [], _ => []
  | (k, v) :: rest, name =>
    if name = k then dremove rest name else (k, v) :: dremove rest name

/-- Resolve a relative path of plain components, treating every
intermediate component strictly as a directory (no symlink following),
and returning the final node if present. -/
def dlookupPath : DirT → List String → Option Node
  | _, [] => none
  | d, x :: xs =>
    match xs with
    | [] => dlookup d x
    | _ :: _ =>
      match dlookup d x with
      | some (.dir _ _ es) => dlookupPath es xs
      | _ => none

/-- `Dir::open_dir` on a path of plain components: errors with
`NotFound` on a missing component and with a non-`NotFound` error when a
component is not a directory. -/
def dopenDir : DirT → List String → Except IoError DirT
  | d, [] => .ok d
  | d, x :: xs =>
    match dlookup d x with
    | some (.dir _ _ es) => dopenDir es xs
    | some _ => .error ⟨.other, "Not a directory"⟩
    | none => .error ⟨.notFound, "No such file or directory"⟩

/-- Write back the entry list of the subdirectory at the given path
(the model of the fact that mutating an opened subdirectory handle
mutates that subtree of the filesystem). -/
def dupdateAt : DirT → List String → DirT → DirT
  | _, [], d2 => d2
  | d, x :: xs, d2 =>
    match dlookup d x with
    | some (.dir p v es) => dinsert d x (.dir p v (dupdateAt es xs d2))
    | _ => d

/-- Insert a node at a path whose parent components are directories. -/
def dinsertAt : DirT → List String → Node → DirT
  | d, [], _ => d
  | d, x :: xs, n =>
    match xs with
    | [] => dinsert d x n
    | _ :: _ =>
      match dlookup d x with
      | some (.dir p v es) => dinsert d x (.dir p v (dinsertAt es xs n))
      | _ => d

/-- Remove the single directory entry at a path (with its subtree, if a
directory). -/
def dremoveAt : DirT → List String → DirT
  | d, [] => d
  | d, x :: xs =>
    match xs with
    | [] => dremove d x
    | _ :: _ =>
      match dlookup d x with
      | some (.dir p v es) => dinsert d x (.dir p v (dremoveAt es xs))
      | _ => d

/-- `symlink_metadata_optional` (src/dirext.rs): `lstat` through strict
directory components with `NotFound` mapped to `none` by `map_optional`;
a non-directory intermediate component is a non-`NotFound` error and
propagates. -/
def symlink_metadata_at : DirT → List String → Except IoError (Option Node)
  | _, [] => .ok none
  | d, x :: xs =>
    match xs with
    | [] => .ok (dlookup d x)
    | _ :: _ =>
      match dlookup d x with
      | some (.dir _ _ es) => symlink_metadata_at es xs
      | some _ => .error ⟨.other, "Not a directory"⟩
      | none => .ok none

/-- `p` is an initial segment of `q` (used to state locality of removals
and root confinement). -/
def pathLeads : List String → List String → Bool
  | [], _ => true
  | _ :: _, [] => false
  | a :: p, b :: q => a = b && pathLeads p q

mutual
/-- Number of nodes in a tree rooted at one node (the node itself plus
its descendants); used as the recursion measure for the walk. -/
def nodeSize : Node → Nat
  | .file _ => 1
  | .symlink _ => 1
  | .dir _ _ es => 1 + treeSize es
/-- Number of nodes hanging below a directory's entry list. -/
def treeSize : DirT → Nat
  | [] => 0
  | (_, n) :: r => nodeSize n + treeSize r
end

/-- `cap_std::fs::FileType` restricted to the cases the walker
distinguishes. -/
inductive FileType where
  | file
  | symlink
  | dir
deriving DecidableEq

/-- The file type reported by `DirEntry::file_type` (an `lstat`: a
symlink reports `symlink`, never the target's type). -/
def Node.typeOf : Node → FileType
  | .file _ => .file
  | .symlink _ => .symlink
  | .dir _ _ _ => .dir

/-- `std::ops::ControlFlow<()>` as returned by a walk callback. -/
inductive CtrlFlow where
  | Continue
  | Break
deriving DecidableEq

/-- The data of a `WalkComponent` (src/dirext.rs) observable in the
model: the reported path, the file name and the file type.  The parent
`Dir` handle and raw `DirEntry` are not separately observable here. -/
structure WalkEnt where
  path : List String
  filename : String
  file_type : FileType

/-- `WalkConfiguration` (src/dirext.rs). -/
structure WalkCfg where
  noxdev : Bool
  path_base : Option (List String)
  sorter : Option ((String × Node) → (String × Node) → Ordering)

/-- Insert one entry into a list sorted by the comparator (used to model
the in-place `sort_by` of one directory level's entries). -/
def insSorted (cmp : (String × Node) → (String × Node) → Ordering)
    (x : String × Node) : DirT → DirT
  | [] => [x]
  | y :: rest =>
    match cmp x y with
    | .lt => x :: y :: rest
    | _ => y :: insSorted cmp x rest

/-- Sort one directory level's entries by the configured comparator. -/
def sortByCmp (cmp : (String × Node) → (String × Node) → Ordering) : DirT → DirT
  | [] => []
  | x :: r => insSorted cmp x (sortByCmp cmp r)

/-- Apply the configured sorter, if any, to one directory level. -/
def sortOpt (cfg : WalkCfg) (es : DirT) : DirT :=
  match cfg.sorter with
  | none => es
  | some cmp => sortByCmp cmp es

theorem nodeSize_pos (n : Node) : 0 < nodeSize n := by
  cases n <;> simp [nodeSize]

theorem treeSize_insSorted (cmp) (x : String × Node) (l : DirT) :
    treeSize (insSorted cmp x l) = nodeSize x.2 + treeSize l := by
  induction l with
  | nil => simp [insSorted, treeSize]
  | cons y rest ih =>
    simp only [insSorted]
    cases cmp x y <;> simp [treeSize, ih] <;> omega

theorem treeSize_sortByCmp (cmp) (l : DirT) :
    treeSize (sortByCmp cmp l) = treeSize l := by
  induction l with
  | nil => rfl
  | cons x r ih => simp [sortByCmp, treeSize_insSorted, ih, treeSize]

theorem treeSize_sortOpt (cfg : WalkCfg) (l : DirT) :
    treeSize (sortOpt cfg l) = treeSize l := by
  unfold sortOpt
  cases cfg.sorter with
  | none => rfl
  | some cmp => exact treeSize_sortByCmp _ _

/-- The body of `walk_inner` (src/dirext.rs) operating on one
directory's already-sorted entry list.  The callback is an `FnMut`, so
its captured state `σw` is threaded explicitly.  Per entry: invoke the
callback; a callback error aborts the whole walk; `Break` on a
non-directory returns from this directory level; `Break` on a directory
skips only the descent; otherwise descend (sorting the child level, and
skipping children on another device when `noxdev` is configured, as
`impl_open_dir_noxdev` maps `EXDEV` to `None`). -/
def walk_entries {σw ε : Type} (cb : σw → WalkEnt → σw × Except ε CtrlFlow)
    (cfg : WalkCfg) (dev : Nat) (path : List String) :
    DirT → σw → σw × Except ε Unit
  | [], s => (s, .ok ())
  | (name, node) :: rest, s =>
    let ty := node.typeOf
    match cb s ⟨path ++ [name], name, ty⟩ with
    | (s1, .error e) => (s1, .error e)
    | (s1, .ok flow) =>
      if ty ≠ FileType.dir then
        if flow = CtrlFlow.Break then (s1, .ok ())
        else walk_entries cb cfg dev path rest s1
      else if flow = CtrlFlow.Break then
        walk_entries cb cfg dev path rest s1
      else
        match node with
        | .dir _ cdev centries =>
          if cfg.noxdev ∧ cdev ≠ dev then walk_entries cb cfg dev path rest s1
          else
            match walk_entries cb cfg cdev (path ++ [name]) (sortOpt cfg centries) s1 with
            | (s2, .ok ()) => walk_entries cb cfg dev path rest s2
            | (s2, .error e) => (s2, .error e)
        | _ => (s1, .ok ())
termination_by l _ => treeSize l
decreasing_by
  all_goals simp [treeSize, treeSize_sortOpt, nodeSize]
  all_goals first
    | omega
    | exact nodeSize_pos _

/-- `walk_inner` (src/dirext.rs): sort one level if configured, then
iterate it. -/
def walk_inner {σw ε : Type} (cb : σw → WalkEnt → σw × Except ε CtrlFlow)
    (cfg : WalkCfg) (dev : Nat) (path : List String) (entries : DirT) (s : σw) :
    σw × Except ε Unit :=
  walk_entries cb cfg dev path (sortOpt cfg entries) s

/-- `CapStdExtDirExt::walk` (src/dirext.rs): start from the configured
path base (default empty) and run `walk_inner` on the root entries. -/
def walk {σw ε : Type} (cb : σw → WalkEnt → σw × Except ε CtrlFlow)
    (cfg : WalkCfg) (dev : Nat) (entries : DirT) (s : σw) : σw × Except ε Unit :=
  let pb := match cfg.path_base with
    | some p => p
    | none => []
  walk_inner cb cfg dev pb entries s

/-- Number of nodes of the given file type in a whole tree. -/
def countType (t : FileType) : DirT → Nat
  | [] => 0
  | (_, n) :: r =>
    (if n.typeOf = t then 1 else 0) +
    (match n with
     | .dir _ _ es => countType t es
     | _ => 0) + countType t r

/-- The default `WalkConfiguration`: no `noxdev`, no path base, no sorter. -/
def cfg0 : WalkCfg := ⟨false, none, none⟩

/-- A callback that counts every entry it is shown and always continues. -/
def count_cb : Nat → WalkEnt → Nat × Except IoError CtrlFlow :=
  fun s _ => (s + 1, .ok .Continue)

/-- A callback recording each visited path, breaking on every directory
and continuing past everything else. -/
def record_breakdirs_cb : List (List String) → WalkEnt →
    List (List String) × Except IoError CtrlFlow :=
  fun s e =>
    (s ++ [e.path], .ok (if e.file_type = FileType.dir then .Break else .Continue))

/-- A callback recording each visited path and breaking exactly on the
given target path. -/
def breakon_cb (target : List String) : List (List String) → WalkEnt →
    List (List String) × Except IoError CtrlFlow :=
  fun s e => (s ++ [e.path], .ok (if e.path = target then .Break else .Continue))

/-- A regular file used in the concrete walk trees. -/
def fo1 : FileObj := ⟨0o644, [1]⟩

/-- Concrete tree: a directory `a` containing a file `f`, followed by a
sibling file `b`. -/
def T1 : DirT := [("a", .dir 0o755 0 [("f", .file fo1)]), ("b", .file fo1)]

/-- `u32::MAX`, the bound of the scratch-name retry loops in
src/tempfile.rs. -/
def UMAX : Nat := 4294967295

/-- The error surfaced when a scratch-name retry loop exhausts its bound. -/
def too_many_tempfiles : IoError := ⟨.alreadyExists, "too many temporary files exist"⟩

/-- The fallback loop of `new_tempfile` (src/tempfile.rs): draw a random
name (`names n` is the name of the n-th draw) and attempt an
exclusive create (`create`, `O_EXCL` semantics at the io-error level);
retry on `AlreadyExists` only; the attempt counter is incremented with
`saturating_add` and reaching `u32::MAX` surfaces `too_many_tempfiles`. -/
def open_with_retry_loop {Fh : Type} (create : String → Except IoError Fh)
    (names : Nat → String) (attempts : Nat) : Except IoError (Fh × String) :=
  let a := min (attempts + 1) UMAX
  if h : a = UMAX then .error too_many_tempfiles
  else
    match create (names a) with
    | .ok f => .ok (f, names a)
    | .error e =>
      if e.kind = ErrorKind.alreadyExists then open_with_retry_loop create names a
      else .error e
termination_by UMAX - attempts
decreasing_by
  have h2 : ¬ ((attempts + 1) ⊓ 4294967295 = 4294967295) := h
  simp only [UMAX]
  omega

/-- `new_tempfile` (src/tempfile.rs): try the anonymous `O_TMPFILE`
descriptor first; fall back to the exclusive-create retry loop only on
`OPNOTSUPP`; any other errno converts and propagates. -/
def new_tempfile {Fh : Type} (openat_tmpfile : Except Errno Fh)
    (create : String → Except IoError Fh) (names : Nat → String) :
    Except IoError (Fh × Option String) :=
  match openat_tmpfile with
  | .ok f => .ok (f, none)
  | .error .opnotsupp =>
    match open_with_retry_loop create names 0 with
    | .ok (f, nm) => .ok (f, some nm)
    | .error e => .error e
  | .error e => .error e.toIo

/-- The loop of `generate_name_in` (src/tempfile.rs): link the anonymous
descriptor at a fresh random name, retrying on the errno `EXIST` only,
with the same saturating bound. -/
def generate_name_in_loop (lnk : String → Except Errno Unit)
    (names : Nat → String) (attempts : Nat) : Except IoError String :=
  let a := min (attempts + 1) UMAX
  if h : a = UMAX then .error too_many_tempfiles
  else
    match lnk (names a) with
    | .ok () => .ok (names a)
    | .error .exist => generate_name_in_loop lnk names a
    | .error e => .error e.toIo
termination_by UMAX - attempts
decreasing_by
  have h2 : ¬ ((attempts + 1) ⊓ 4294967295 = 4294967295) := h
  simp only [UMAX]
  omega

/-- `generate_name_in` (src/tempfile.rs). -/
def generate_name_in (lnk : String → Except Errno Unit) (names : Nat → String) :
    Except IoError String :=
  generate_name_in_loop lnk names 0

/-- The state of a `LinkableTempfile`/`cap_tempfile::TempFile`
descriptor: the file object it denotes (content written so far and
mode, initially empty with the creation mode `0o600`), plus its scratch
directory-entry name when the named fallback was taken (`None` for an
anonymous `O_TMPFILE` descriptor). -/
structure Temp where
  perm : Nat
  data : List Nat
  tempname : Option String
deriving DecidableEq

/-- `Drop for LinkableTempfile` (src/tempfile.rs): unlink the scratch
name if one is assigned; an anonymous descriptor needs no cleanup. -/
def tempfile_drop (d : DirT) (t : Temp) : DirT :=
  match t.tempname with
  | some tn => dremove d tn
  | none => d

/-- `metadata_optional` following the trailing symlink chain (bounded by
the kernel's 40-link limit, whose exhaustion is the non-`NotFound` error
`ELOOP`); a dangling link maps to `none`. -/
def follow_chain (d : DirT) : Nat → String → Except IoError (Option Node)
  | 0, _ => .error ⟨.other, "Too many levels of symbolic links"⟩
  | fuel + 1, nm =>
    match dlookup d nm with
    | none => .ok none
    | some (.symlink tgt) => follow_chain d fuel tgt
    | some n => .ok (some n)

/-- `metadata_optional` on a single name (src/dirext.rs semantics as
used by `default_permissions`). -/
def metadata_follow (d : DirT) (nm : String) : Except IoError (Option Node) :=
  follow_chain d 40 nm

/-- `LinkableTempfile::default_permissions` (src/tempfile.rs): the
existing destination's (follow-mode) permissions, or `0o600`. -/
def default_permissions (d : DirT) (name : String) : Except IoError Nat :=
  match metadata_follow d name with
  | .error e => .error e
  | .ok (some n) => .ok n.permissions
  | .ok none => .ok 0o600

/-- `LinkableTempfile::try_emplace_to` (src/tempfile.rs): `linkat` the
descriptor at the destination name; fails with errno `EXIST` if the
name is taken, leaving it untouched. -/
def try_emplace_to (d : DirT) (t : Temp) (name : String) : DirT × Except IoError Unit :=
  match dlookup d name with
  | some _ => (d, .error Errno.exist.toIo)
  | none => (dinsert d name (.file ⟨t.perm, t.data⟩), .ok ())

/-- `LinkableTempfile::emplace` (src/tempfile.rs): strict-create link of
the descriptor at its destination name; the consumed value is then
dropped, removing any scratch name. -/
def emplace_run (d : DirT) (t : Temp) (name : String) : DirT × Except IoError Unit :=
  match try_emplace_to d t name with
  | (d1, r) => (tempfile_drop d1 t, r)

/-- `LinkableTempfile::replace_with_perms` (src/tempfile.rs): `fchmod`
the descriptor, take the scratch name (or link one in, `scratch`, the
fresh name produced by `generate_name_in`), then `renameat` it over the
destination.  Renaming a file over an existing directory fails, in
which case the restored scratch name is unlinked by `Drop`. -/
def replace_with_perms_run (d : DirT) (t : Temp) (scratch name : String)
    (permissions : Nat) : DirT × Except IoError Unit :=
  let t1 : Temp := ⟨permissions, t.data, t.tempname⟩
  let dtn : DirT × String :=
    match t1.tempname with
    | some tn => (d, tn)
    | none => (dinsert d scratch (.file ⟨t1.perm, t1.data⟩), scratch)
  match dlookup dtn.1 name with
  | some (.dir _ _ _) => (dremove dtn.1 dtn.2, .error ⟨.other, "Is a directory"⟩)
  | _ => (dinsert (dremove dtn.1 dtn.2) name (.file ⟨t1.perm, t1.data⟩), .ok ())

/-- `LinkableTempfile::replace` (src/tempfile.rs): inherit the existing
destination's permissions (or default `0o600`), then rename into place;
a failure querying the permissions drops the tempfile. -/
def replace_run (d : DirT) (t : Temp) (scratch name : String) :
    DirT × Except IoError Unit :=
  match default_permissions d name with
  | .error e => (tempfile_drop d t, .error e)
  | .ok permissions => replace_with_perms_run d t scratch name permissions

/-- One component of a Rust `Path`, as yielded by `Path::components`. -/
inductive Comp where
  | normal (s : String)
  | parentDir
  | curDir
deriving DecidableEq

/-- A Rust `Path`: whether it is absolute, plus its components. -/
structure RPath where
  absolute : Bool
  comps : List Comp
deriving DecidableEq

/-- `escape_attempt` (src/lib.rs). -/
def escape_attempt : IoError :=
  ⟨.permissionDenied, "a path led outside of the filesystem"⟩

/-- `validate_relpath_no_uplinks` (src/dirext.rs): reject absolute paths
and paths containing a `..` component. -/
def validate_relpath_no_uplinks (p : RPath) : Except IoError RPath :=
  let is_absolute := p.absolute
  let contains_uplinks := p.comps.any (fun c => c = Comp.parentDir)
  if is_absolute || contains_uplinks then .error escape_attempt
  else .ok p

/-- `proc_self_path` (src/xattrs.rs): validate the relative path, then
synthesize `/proc/self/fd/<fd>/<path>`. -/
def proc_self_path (fd : Nat) (p : RPath) : Except IoError RPath :=
  match validate_relpath_no_uplinks p with
  | .error e => .error e
  | .ok p1 =>
    .ok ⟨true, [.normal "proc", .normal "self", .normal "fd",
      .normal (toString fd)] ++ p1.comps⟩

/-- `impl_getxattr` (src/xattrs.rs): synthesize the lookup path first;
`sysGet` abstracts the `lgetxattr` grow-and-retry loop on that path
(`none` models `ENODATA`). -/
def impl_getxattr (sysGet : RPath → String → Except IoError (Option (List Nat)))
    (fd : Nat) (p : RPath) (key : String) : Except IoError (Option (List Nat)) :=
  match proc_self_path fd p with
  | .error e => .error e
  | .ok sp => sysGet sp key

/-- `impl_setxattr` (src/xattrs.rs): synthesize the lookup path first;
`sysSet` abstracts the single `lsetxattr` call. -/
def impl_setxattr (sysSet : RPath → String → List Nat → Except IoError Unit)
    (fd : Nat) (p : RPath) (key : String) (value : List Nat) :
    Except IoError Unit :=
  match proc_self_path fd p with
  | .error e => .error e
  | .ok sp => sysSet sp key value

/-- `impl_listxattrs` (src/xattrs.rs): synthesize the lookup path first;
`sysList` abstracts the `llistxattr` grow-and-retry loop, returning the
NUL-separated name buffer. -/
def impl_listxattrs (sysList : RPath → Except IoError (List Nat))
    (fd : Nat) (p : RPath) : Except IoError (List Nat) :=
  match proc_self_path fd p with
  | .error e => .error e
  | .ok sp => sysList sp

/-- A node of the ambient filesystem seen by `openat2`: used to model
`RootDir` resolution.  Symlink targets are full paths and `magiclink`
stands for a procfs-style indirection link. -/
inductive RNode where
  | file (data : List Nat)
  | symlink (target : RPath)
  | magiclink
  | dir (entries : List (String × RNode))

/-- Entry lookup in an ambient directory. -/
def rlookup : List (String × RNode) → String → Option RNode
  | [], _ => none
  | (k, v) :: rest, name => if name = k then some v else rlookup rest name

/-- The node at an absolute ambient path of already-resolved components. -/
def rnodeAt : RNode → List String → Option RNode
  | n, [] => some n
  | .dir es, x :: xs =>
    match rlookup es x with
    | some c => rnodeAt c xs
    | none => none
  | _, _ :: _ => none

/-- Modelled from the spec: the kernel's `openat2` resolution with
`RESOLVE_IN_ROOT | RESOLVE_NO_MAGICLINKS`, which `open_beneath_rdonly`
(src/rootdir.rs) invokes but whose algorithm lives outside this
repository.  `root` is the ambient path of the `RootDir`; `cur` is the
resolved-so-far path relative to it and `rest` the remaining
components.  A `..` at the root is clamped (chroot-like semantics);
absolute paths and absolute symlink targets restart at the root;
symlink expansion consumes `fuel` (the kernel's 40-link limit) and a
magic link is rejected outright.  The `EAGAIN`/`EINTR` retry loop of
`open_beneath_rdonly` has no visible effect in this sequential model. -/
def open_beneath_loop (amb : RNode) (root : List String) :
    Nat → List String → List Comp → Except IoError (List String)
  | _, cur, [] => .ok (root ++ cur)
  | fuel, cur, .curDir :: rest => open_beneath_loop amb root fuel cur rest
  | fuel, cur, .parentDir :: rest => open_beneath_loop amb root fuel cur.dropLast rest
  | fuel, cur, .normal s :: rest =>
    match rnodeAt amb (root ++ cur ++ [s]) with
    | none => .error ⟨.notFound, "No such file or directory"⟩
    | some (.dir _) => open_beneath_loop amb root fuel (cur ++ [s]) rest
    | some (.file _) =>
      match rest with
      | [] => .ok (root ++ cur ++ [s])
      | _ :: _ => .error ⟨.other, "Not a directory"⟩
    | some .magiclink => .error ⟨.other, "Too many levels of symbolic links"⟩
    | some (.symlink tgt) =>
      match fuel with
      | 0 => .error ⟨.other, "Too many levels of symbolic links"⟩
      | fuel1 + 1 =>
        if tgt.absolute then open_beneath_loop amb root fuel1 [] (tgt.comps ++ rest)
        else open_beneath_loop amb root fuel1 cur (tgt.comps ++ rest)
termination_by fuel _ rest => (fuel, rest.length)
decreasing_by
  all_goals simp_wf
  all_goals first
    | (apply Prod.Lex.right; omega)
    | (apply Prod.Lex.left; omega)

/-- `RootDir::open` via `open_beneath_rdonly` (src/rootdir.rs): resolve
the given path with in-root semantics starting at the root, returning
the ambient path of the opened object. -/
def rootdir_open (amb : RNode) (root : List String) (p : RPath) :
    Except IoError (List String) :=
  open_beneath_loop amb root 40 [] p.comps

/-- `RootDir::read` (src/rootdir.rs): open, then read the file content. -/
def rootdir_read (amb : RNode) (root : List String) (p : RPath) :
    Except IoError (List Nat) :=
  match rootdir_open amb root p with
  | .error e => .error e
  | .ok respath =>
    match rnodeAt amb respath with
    | some (.file data) => .ok data
    | _ => .error ⟨.other, "Is a directory"⟩

/-- `subdir_of` (src/dirext.rs), path-splitting part: the final
component is the file name (`InvalidInput` when there is none) and the
leading components name the parent subdirectory to open (empty list:
reborrow the directory itself). -/
def arw_subdir : List String → Except IoError (List String × String)
  | [] => .error ⟨.invalidInput, "Not a file name"⟩
  | x :: xs =>
    match xs with
    | [] => .ok ([], x)
    | _ :: _ =>
      match arw_subdir xs with
      | .ok (p, n) => .ok (x :: p, n)
      | .error e => .error e

/-- The permissions inherited by `atomic_replace_with` (src/dirext.rs):
the existing destination metadata filtered to plain files. -/
def arw_existing_perms (m : Option Node) : Option Nat :=
  match m with
  | some (.file fo) => some fo.perm
  | _ => none

/-- The file object handed to the writer closure: a fresh empty temp
file created with mode `0o600`, re-moded to the inherited permissions
when the destination is an existing plain file. -/
def arw_temp_fo (m : Option Node) : FileObj :=
  ⟨(match arw_existing_perms m with
    | some pm => pm
    | none => 0o600), []⟩

/-- Modelled from the spec: `cap_tempfile::TempFile::new` (the crate
delegates temp-file creation to this external protocol; spec section
4.4 describes it).  `anon` selects the anonymous `O_TMPFILE` strategy;
otherwise the exclusive-create fallback links the descriptor at the
fresh scratch name `scratch1` (the outcome of the retry loop modelled
by `open_with_retry_loop`). -/
def temp_new (anon : Bool) (scratch1 : String) (d : DirT) : DirT × Temp :=
  if anon then (d, ⟨0o600, [], none⟩)
  else (dinsert d scratch1 (.file ⟨0o600, []⟩), ⟨0o600, [], some scratch1⟩)

/-- Modelled from the spec: `cap_tempfile::TempFile::replace` (spec
sections 4.3-4.4): take the scratch name (linking one in at the fresh
name `scratch2` for an anonymous descriptor), then `renameat` it over
the destination name; renaming a file over an existing directory fails
and the scratch entry is unlinked by `Drop`.  Permissions are not
touched here. -/
def temp_replace (d : DirT) (t : Temp) (scratch2 name : String) :
    DirT × Except IoError Unit :=
  let dtn : DirT × String :=
    match t.tempname with
    | some tn => (d, tn)
    | none => (dinsert d scratch2 (.file ⟨t.perm, t.data⟩), scratch2)
  match dlookup dtn.1 name with
  | some (.dir _ _ _) => (dremove dtn.1 dtn.2, .error ⟨.other, "Is a directory"⟩)
  | _ => (dinsert (dremove dtn.1 dtn.2) name (.file ⟨t.perm, t.data⟩), .ok ())

/-- `atomic_replace_with` (src/dirext.rs).  The writer closure is
modelled as a transformer of the temp file object that either produces
the caller value and the written file state or fails with the caller
error type `E` (io errors entering via `liftE`, the `From<io::Error>`
bound).  Mirrors the source line by line: split the destination, query
`symlink_metadata_optional` on the *full* destination path relative to
the opened parent, filter to plain files for inherited permissions,
create the temp file, apply inherited permissions, run the closure
(abandoning the temp file on its error), fsync, rename into place,
fsync the parent. -/
def atomic_replace_with {E T : Type} (liftE : IoError → E) (anon : Bool)
    (scratch1 scratch2 : String) (fs : DirT) (destname : List String)
    (f : FileObj → Except E (T × FileObj)) : DirT × Except E T :=
  match arw_subdir destname with
  | .error e => (fs, .error (liftE e))
  | .ok (parent, name) =>
    match dopenDir fs parent with
    | .error e => (fs, .error (liftE e))
    | .ok d =>
      match symlink_metadata_at d destname with
      | .error e => (fs, .error (liftE e))
      | .ok m =>
        let dt := temp_new anon scratch1 d
        let t1 : Temp := ⟨(arw_temp_fo m).perm, (arw_temp_fo m).data,
          dt.2.tempname⟩
        match f (arw_temp_fo m) with
        | .error e => (dupdateAt fs parent (tempfile_drop dt.1 t1), .error e)
        | .ok (r, tf) =>
          let t2 : Temp := ⟨tf.perm, tf.data, t1.tempname⟩
          match temp_replace dt.1 t2 scratch2 name with
          | (d2, .error e) => (dupdateAt fs parent d2, .error (liftE e))
          | (d2, .ok ()) => (dupdateAt fs parent d2, .ok r)

/-- The closure of `atomic_write_with_perms` (src/dirext.rs): first set
the conservative `0o600` mode, then write the contents, flush, and set
the caller's permissions. -/
def awwp_closure (contents : List Nat) (perms : Nat) (tf : FileObj) :
    Except IoError (Unit × FileObj) :=
  let tfa : FileObj := ⟨0o600, tf.data⟩
  let tfb : FileObj := ⟨tfa.perm, tfa.data ++ contents⟩
  .ok ((), ⟨perms, tfb.data⟩)

/-- `atomic_write_with_perms` (src/dirext.rs). -/
def atomic_write_with_perms (anon : Bool) (scratch1 scratch2 : String)
    (fs : DirT) (destname : List String) (contents : List Nat) (perms : Nat) :
    DirT × Except IoError Unit :=
  atomic_replace_with id anon scratch1 scratch2 fs destname
    (awwp_closure contents perms)

/-- `remove_dir_all` on a strict path: requires the target to be a
directory (a symlink or file is a non-`NotFound` error) and removes the
whole subtree. -/
def remove_dir_all (fs : DirT) (p : List String) : DirT × Except IoError Unit :=
  match dlookupPath fs p with
  | some (.dir _ _ _) => (dremoveAt fs p, .ok ())
  | some _ => (fs, .error ⟨.other, "Not a directory"⟩)
  | none => (fs, .error ⟨.notFound, "No such file or directory"⟩)

/-- `remove_file` on a strict path: removes a non-directory entry (the
symlink itself, never its target); a directory is an error. -/
def remove_file (fs : DirT) (p : List String) : DirT × Except IoError Unit :=
  match dlookupPath fs p with
  | some (.dir _ _ _) => (fs, .error ⟨.other, "Is a directory"⟩)
  | some _ => (dremoveAt fs p, .ok ())
  | none => (fs, .error ⟨.notFound, "No such file or directory"⟩)

/-- `remove_all_optional` (src/dirext.rs): `symlink_metadata_optional`,
absent maps to `Ok(false)`; a directory is removed with `remove_dir_all`
and anything else with `remove_file`, returning `Ok(true)`. -/
def remove_all_optional (fs : DirT) (p : List String) :
    DirT × Except IoError Bool :=
  match symlink_metadata_at fs p with
  | .error e => (fs, .error e)
  | .ok none => (fs, .ok false)
  | .ok (some m) =>
    if m.isDir then
      match remove_dir_all fs p with
      | (fs1, .ok ()) => (fs1, .ok true)
      | (fs1, .error e) => (fs1, .error e)
    else
      match remove_file fs p with
      | (fs1, .ok ()) => (fs1, .ok true)
      | (fs1, .error e) => (fs1, .error e)

/-- `create_dir_with` (cap-std `mkdirat`): `AlreadyExists` if any entry
(file, directory, symlink - not followed) occupies the final component;
otherwise the parent components must resolve as directories. -/
def create_dir_with (fs : DirT) (p : List String) (bperm : Nat) :
    DirT × Except IoError Unit :=
  match p with
  | [] => (fs, .error ⟨.notFound, "No such file or directory"⟩)
  | _ :: _ =>
    match dlookupPath fs p with
    | some _ => (fs, .error ⟨.alreadyExists, "File exists"⟩)
    | none =>
      match dopenDir fs p.dropLast with
      | .ok _ => (dinsertAt fs p (.dir bperm 0 []), .ok ())
      | .error e => (fs, .error e)

/-- `ensure_dir_with` (src/dirext.rs): try `create_dir_with`; on
`AlreadyExists` check with `symlink_metadata` whether the existing
entry is a directory (`Ok(false)`) or not (the "Found non-directory"
error); all other errors propagate. -/
def ensure_dir_with (fs : DirT) (p : List String) (bperm : Nat) :
    DirT × Except IoError Bool :=
  match create_dir_with fs p bperm with
  | (fs1, .ok ()) => (fs1, .ok true)
  | (_, .error e) =>
    if e.kind = ErrorKind.alreadyExists then
      match symlink_metadata_at fs p with
      | .error e2 => (fs, .error e2)
      | .ok none => (fs, .error ⟨.notFound, "No such file or directory"⟩)
      | .ok (some m) =>
        if m.isDir then (fs, .ok false)
        else (fs, .error ⟨.other, "Found non-directory"⟩)
    else (fs, .error e)

/-- A writer closure that appends one byte and does not touch
permissions (used to exercise `atomic_replace_with` without an explicit
permission override). -/
def write2_closure : FileObj → Except IoError (Unit × FileObj) :=
  fun tf => .ok ((), ⟨tf.perm, tf.data ++ [2]⟩)

/-- Concrete tree for `atomic_replace_with` on a parented destination:
an existing plain file `a/b` with mode `0o644`. -/
def fsA : DirT := [("a", .dir 0o755 0 [("b", .file ⟨0o644, [1]⟩)])]

/-- Concrete ambient filesystem for `RootDir` resolution: the root
lives at ambient path `td` and contains an absolute symlink
`etc/auth.json` to `/usr/lib/auth.json`, that target file, a file `x`,
a symlink `lnk` whose `../../x` target climbs above the root, and a
magic link `mag`. -/
def amb5 : RNode := .dir [("td", .dir [
  ("etc", .dir [("auth.json",
    .symlink ⟨true, [.normal "usr", .normal "lib", .normal "auth.json"]⟩)]),
  ("usr", .dir [("lib", .dir [("auth.json", .file [7])])]),
  ("x", .file [9]),
  ("lnk", .symlink ⟨false, [.parentDir, .parentDir, .normal "x"]⟩),
  ("mag", .magiclink)])]

/-!
General lemmas about the embedded operations, followed by the
claim-level theorems.
-/

theorem dlookup_dinsert_self (d : DirT) (k : String) (n : Node) :
    dlookup (dinsert d k n) k = some n := by
  induction d with
  | nil => simp [dinsert, dlookup]
  | cons e rest ih =>
    obtain ⟨ek, ev⟩ := e
    by_cases h : k = ek
    · simp [dinsert, dlookup, h]
    · simp [dinsert, dlookup, h, ih]

theorem dlookup_dinsert_ne (d : DirT) (k k' : String) (n : Node) (h : k' ≠ k) :
    dlookup (dinsert d k n) k' = dlookup d k' := by
  induction d with
  | nil => simp [dinsert, dlookup, h]
  | cons e rest ih =>
    obtain ⟨ek, ev⟩ := e
    by_cases hk : k = ek
    · subst hk
      simp [dinsert, dlookup, h]
    · by_cases hk' : k' = ek
      · simp [dinsert, dlookup, hk, hk']
      · simp [dinsert, dlookup, hk, hk', ih]

theorem dlookup_dremove_self (d : DirT) (k : String) :
    dlookup (dremove d k) k = none := by
  induction d with
  | nil => simp [dremove, dlookup]
  | cons e rest ih =>
    obtain ⟨ek, ev⟩ := e
    by_cases h : k = ek
    · subst h
      simp [dremove, ih]
    · simp [dremove, dlookup, h, ih]

theorem dlookup_dremove_ne (d : DirT) (k k' : String) (h : k' ≠ k) :
    dlookup (dremove d k) k' = dlookup d k' := by
  induction d with
  | nil => simp [dremove]
  | cons e rest ih =>
    obtain ⟨ek, ev⟩ := e
    by_cases hk : k = ek
    · subst hk
      simp [dremove, dlookup, h, ih]
    · by_cases hk' : k' = ek
      · simp [dremove, dlookup, hk, hk']
      · simp [dremove, dlookup, hk, hk', ih]

theorem dremove_dinsert_fresh (d : DirT) (k : String) (n : Node)
    (h : dlookup d k = none) : dremove (dinsert d k n) k = d := by
  induction d with
  | nil => simp [dinsert, dremove]
  | cons e rest ih =>
    obtain ⟨ek, ev⟩ := e
    by_cases hk : k = ek
    · simp [dlookup, hk] at h
    · simp [dlookup, hk] at h
      simp [dinsert, dremove, hk, ih h]

theorem dinsert_lookup_eq (d : DirT) (k : String) (n : Node)
    (h : dlookup d k = some n) : dinsert d k n = d := by
  induction d with
  | nil => simp [dlookup] at h
  | cons e rest ih =>
    obtain ⟨ek, ev⟩ := e
    by_cases hk : k = ek
    · simp [dlookup, hk] at h
      simp [dinsert, hk, h]
    · simp [dlookup, hk] at h
      simp [dinsert, hk, ih h]

theorem dlookupPath_single (d : DirT) (x : String) :
    dlookupPath d [x] = dlookup d x := by
  simp [dlookupPath]

theorem dlookupPath_cons_dir (d : DirT) (x : String) (pm dv : Nat) (es : DirT)
    (q : List String) (hx : dlookup d x = some (.dir pm dv es)) (hq : q ≠ []) :
    dlookupPath d (x :: q) = dlookupPath es q := by
  cases q with
  | nil => exact absurd rfl hq
  | cons y ys => simp [dlookupPath, hx]

theorem dopenDir_cons (d : DirT) (x : String) (xs : List String) :
    dopenDir d (x :: xs) =
      match dlookup d x with
      | some (.dir _ _ es) => dopenDir es xs
      | some _ => .error ⟨.other, "Not a directory"⟩
      | none => .error ⟨.notFound, "No such file or directory"⟩ := by
  simp [dopenDir]

theorem dupdateAt_self (fs : DirT) (p : List String) (d : DirT)
    (h : dopenDir fs p = .ok d) : dupdateAt fs p d = fs := by
  induction p generalizing fs with
  | nil =>
    simp [dopenDir] at h
    simp [dupdateAt, h]
  | cons x xs ih =>
    rw [dopenDir_cons] at h
    cases hq : dlookup fs x with
    | none => rw [hq] at h; exact absurd h (by simp)
    | some n =>
      rw [hq] at h
      cases n with
      | file f => exact absurd h (by simp)
      | symlink t => exact absurd h (by simp)
      | dir pm dv es =>
        simp only at h
        simp only [dupdateAt, hq, ih es h]
        exact dinsert_lookup_eq _ _ _ hq

theorem dlookupPath_dupdateAt (fs : DirT) (p : List String) (d d2 : DirT)
    (nm : String) (h : dopenDir fs p = .ok d) :
    dlookupPath (dupdateAt fs p d2) (p ++ [nm]) = dlookup d2 nm := by
  induction p generalizing fs with
  | nil => simp [dupdateAt, dlookupPath]
  | cons x xs ih =>
    rw [dopenDir_cons] at h
    cases hq : dlookup fs x with
    | none => rw [hq] at h; exact absurd h (by simp)
    | some n =>
      rw [hq] at h
      cases n with
      | file f => exact absurd h (by simp)
      | symlink t => exact absurd h (by simp)
      | dir pm dv es =>
        simp only at h
        have hstep : dupdateAt fs (x :: xs) d2 =
            dinsert fs x (.dir pm dv (dupdateAt es xs d2)) := by
          simp [dupdateAt, hq]
        rw [hstep, List.cons_append]
        rw [dlookupPath_cons_dir _ x pm dv (dupdateAt es xs d2) (xs ++ [nm])
          (dlookup_dinsert_self _ _ _) (by simp)]
        exact ih es h

theorem dinsertAt_cons_ne (d : DirT) (x : String) (xs : List String) (n : Node)
    (hxs : xs ≠ []) :
    dinsertAt d (x :: xs) n =
      match dlookup d x with
      | some (.dir p v es) => dinsert d x (.dir p v (dinsertAt es xs n))
      | _ => d := by
  cases xs with
  | nil => exact absurd rfl hxs
  | cons y ys => simp [dinsertAt]

theorem dremoveAt_cons_ne (d : DirT) (x : String) (xs : List String)
    (hxs : xs ≠ []) :
    dremoveAt d (x :: xs) =
      match dlookup d x with
      | some (.dir p v es) => dinsert d x (.dir p v (dremoveAt es xs))
      | _ => d := by
  cases xs with
  | nil => exact absurd rfl hxs
  | cons y ys => simp [dremoveAt]

theorem symlink_metadata_at_cons_ne (d : DirT) (x : String) (xs : List String)
    (hxs : xs ≠ []) :
    symlink_metadata_at d (x :: xs) =
      match dlookup d x with
      | some (.dir _ _ es) => symlink_metadata_at es xs
      | some _ => .error ⟨.other, "Not a directory"⟩
      | none => .ok none := by
  cases xs with
  | nil => exact absurd rfl hxs
  | cons y ys => simp [symlink_metadata_at]

theorem smeta_some_lookupPath (fs : DirT) (p : List String) (m : Node)
    (h : symlink_metadata_at fs p = .ok (some m)) : dlookupPath fs p = some m := by
  induction p generalizing fs with
  | nil => simp [symlink_metadata_at] at h
  | cons x xs ih =>
    cases xs with
    | nil =>
      simp [symlink_metadata_at] at h
      simp [dlookupPath, h]
    | cons y ys =>
      rw [symlink_metadata_at_cons_ne _ _ _ (by simp)] at h
      cases hq : dlookup fs x with
      | none => rw [hq] at h; simp at h
      | some nn =>
        rw [hq] at h
        cases nn with
        | file f => simp at h
        | symlink t => simp at h
        | dir pm dv es =>
          simp only at h
          rw [dlookupPath_cons_dir _ _ pm dv es _ hq (by simp)]
          exact ih es h

theorem lookupPath_smeta (fs : DirT) (p : List String) (m : Node)
    (h : dlookupPath fs p = some m) : symlink_metadata_at fs p = .ok (some m) := by
  induction p generalizing fs with
  | nil => simp [dlookupPath] at h
  | cons x xs ih =>
    cases xs with
    | nil =>
      simp [dlookupPath] at h
      simp [symlink_metadata_at, h]
    | cons y ys =>
      cases hq : dlookup fs x with
      | none =>
        rw [dlookupPath] at h
        simp [hq] at h
      | some nn =>
        cases nn with
        | file f =>
          rw [dlookupPath] at h
          simp [hq] at h
        | symlink t =>
          rw [dlookupPath] at h
          simp [hq] at h
        | dir pm dv es =>
          rw [dlookupPath_cons_dir _ _ pm dv es _ hq (by simp)] at h
          rw [symlink_metadata_at_cons_ne _ _ _ (by simp), hq]
          exact ih es h

theorem dlookupPath_cons_notdir (d : DirT) (x : String) (q : List String)
    (hx : ∀ pm dv es, dlookup d x ≠ some (.dir pm dv es)) (hq : q ≠ []) :
    dlookupPath d (x :: q) = none := by
  cases q with
  | nil => exact absurd rfl hq
  | cons y ys =>
    rw [dlookupPath]
    cases hl : dlookup d x with
    | none => simp
    | some nn =>
      cases nn with
      | file f => simp
      | symlink t => simp
      | dir pm dv es => exact absurd hl (hx pm dv es)

theorem dremoveAt_locality (p : List String) : ∀ (fs : DirT) (q : List String),
    pathLeads p q = false → pathLeads q p = false →
    dlookupPath (dremoveAt fs p) q = dlookupPath fs q := by
  induction p with
  | nil => intro fs q h1 _; simp [pathLeads] at h1
  | cons x xs ih =>
    intro fs q h1 h2
    cases q with
    | nil => simp [dlookupPath, dremoveAt]
    | cons y ys =>
      by_cases hxy : x = y
      · subst hxy
        simp only [pathLeads] at h1 h2
        simp at h1 h2
        cases xs with
        | nil => simp [pathLeads] at h1
        | cons z zs =>
          cases ys with
          | nil => simp [pathLeads] at h2
          | cons w ws =>
            rw [dremoveAt_cons_ne _ _ _ (by simp)]
            cases hq : dlookup fs x with
            | none => rfl
            | some nn =>
              cases nn with
              | file f => rfl
              | symlink t => rfl
              | dir pm dv es =>
                simp only
                rw [dlookupPath_cons_dir _ _ pm dv (dremoveAt es (z :: zs)) _
                  (dlookup_dinsert_self _ _ _) (by simp)]
                rw [dlookupPath_cons_dir _ _ pm dv es _ hq (by simp)]
                exact ih es (w :: ws) h1 h2
      · have hyx : y ≠ x := fun hh => hxy hh.symm
        cases xs with
        | nil =>
          simp only [dremoveAt]
          cases ys with
          | nil =>
            simp [dlookupPath, dlookup_dremove_ne _ _ _ hyx]
          | cons w ws =>
            rw [dlookupPath, dlookupPath]
            rw [dlookup_dremove_ne _ _ _ hyx]
        | cons z zs =>
          rw [dremoveAt_cons_ne _ _ _ (by simp)]
          cases hq : dlookup fs x with
          | none => simp only
          | some nn =>
            cases nn with
            | file f => simp only
            | symlink t => simp only
            | dir pm dv es =>
              simp only
              cases ys with
              | nil =>
                simp [dlookupPath, dlookup_dinsert_ne _ _ _ _ hyx]
              | cons w ws =>
                rw [dlookupPath, dlookupPath]
                rw [dlookup_dinsert_ne _ _ _ _ hyx]

theorem dinsertAt_lookupPath (q : List String) : ∀ (fs d0 : DirT) (nm : String)
    (n : Node), dopenDir fs q = .ok d0 →
    dlookupPath (dinsertAt fs (q ++ [nm]) n) (q ++ [nm]) = some n := by
  induction q with
  | nil =>
    intro fs d0 nm n _
    simp [dinsertAt, dlookupPath, dlookup_dinsert_self]
  | cons x xs ih =>
    intro fs d0 nm n h
    rw [dopenDir_cons] at h
    cases hq : dlookup fs x with
    | none => rw [hq] at h; exact absurd h (by simp)
    | some nn =>
      rw [hq] at h
      cases nn with
      | file f => exact absurd h (by simp)
      | symlink t => exact absurd h (by simp)
      | dir pm dv es =>
        simp only at h
        rw [List.cons_append, dinsertAt_cons_ne _ _ _ _ (by simp), hq]
        simp only
        rw [dlookupPath_cons_dir _ _ pm dv (dinsertAt es (xs ++ [nm]) n) _
          (dlookup_dinsert_self _ _ _) (by simp)]
        exact ih es d0 nm n h

theorem dopenDir_error_kind (q : List String) : ∀ (fs : DirT) (e : IoError),
    dopenDir fs q = .error e → e.kind ≠ ErrorKind.alreadyExists := by
  induction q with
  | nil => intro fs e h; simp [dopenDir] at h
  | cons x xs ih =>
    intro fs e h
    rw [dopenDir_cons] at h
    cases hq : dlookup fs x with
    | none =>
      rw [hq] at h
      simp only [Except.error.injEq] at h
      subst h
      simp
    | some nn =>
      rw [hq] at h
      cases nn with
      | file f =>
        simp only [Except.error.injEq] at h
        subst h
        simp
      | symlink t =>
        simp only [Except.error.injEq] at h
        subst h
        simp
      | dir pm dv es =>
        simp only at h
        exact ih es e h

theorem arw_subdir_cons2 (x y : String) (ys : List String) :
    arw_subdir (x :: y :: ys) =
      match arw_subdir (y :: ys) with
      | .ok (p, n) => .ok (x :: p, n)
      | .error e => .error e := rfl

theorem arw_subdir_eq (l : List String) : ∀ (p : List String) (n : String),
    arw_subdir l = .ok (p, n) → l = p ++ [n] := by
  induction l with
  | nil => intro p n h; simp [arw_subdir] at h
  | cons x xs ih =>
    intro p n h
    cases xs with
    | nil =>
      simp [arw_subdir] at h
      simp [h.1, h.2]
    | cons y ys =>
      rw [arw_subdir_cons2] at h
      cases hr : arw_subdir (y :: ys) with
      | error e => rw [hr] at h; simp at h
      | ok pn =>
        obtain ⟨p1, n1⟩ := pn
        rw [hr] at h
        simp only [Except.ok.injEq, Prod.mk.injEq] at h
        obtain ⟨h1, h2⟩ := h
        subst h2
        rw [← h1]
        simp only [List.cons_append, List.cons.injEq, true_and]
        exact ih p1 n1 hr

theorem pathLeads_append (root x : List String) :
    pathLeads root (root ++ x) = true := by
  induction root with
  | nil => simp [pathLeads]
  | cons a r ih => simp [pathLeads, ih]

theorem create_dir_with_ne (fs : DirT) (p : List String) (bperm : Nat)
    (hp : p ≠ []) :
    create_dir_with fs p bperm =
      match dlookupPath fs p with
      | some _ => (fs, .error ⟨.alreadyExists, "File exists"⟩)
      | none =>
        match dopenDir fs p.dropLast with
        | .ok _ => (dinsertAt fs p (.dir bperm 0 []), .ok ())
        | .error e => (fs, .error e) := by
  cases p with
  | nil => exact absurd rfl hp
  | cons x xs => simp [create_dir_with]

/-- Claim C7: `remove_all_optional` returns `Ok(false)` and removes
nothing when no entry exists at the path; removes the whole subtree and
returns `Ok(true)` when the entry is a directory; otherwise (symlinks
included, not followed) removes only that single entry and returns
`Ok(true)` - entries at unrelated paths are untouched. -/
theorem C7_remove_all_optional (fs : DirT) (p : List String) :
    (symlink_metadata_at fs p = .ok none →
      remove_all_optional fs p = (fs, .ok false)) ∧
    (∀ m, symlink_metadata_at fs p = .ok (some m) → m.isDir = true →
      remove_all_optional fs p = (dremoveAt fs p, .ok true)) ∧
    (∀ m, symlink_metadata_at fs p = .ok (some m) → m.isDir = false →
      remove_all_optional fs p = (dremoveAt fs p, .ok true)) ∧
    (∀ q, pathLeads p q = false → pathLeads q p = false →
      dlookupPath (dremoveAt fs p) q = dlookupPath fs q) := by
  refine ⟨?_, ?_, ?_, ?_⟩
  · intro h
    unfold remove_all_optional
    rw [h]
  · intro m h hdir
    have hlp := smeta_some_lookupPath fs p m h
    unfold remove_all_optional
    rw [h]
    cases m with
    | file f => simp [Node.isDir] at hdir
    | symlink t => simp [Node.isDir] at hdir
    | dir pm dv es =>
      simp only [Node.isDir, if_true]
      unfold remove_dir_all
      rw [hlp]
  · intro m h hnd
    have hlp := smeta_some_lookupPath fs p m h
    unfold remove_all_optional
    rw [h]
    cases m with
    | dir pm dv es => simp [Node.isDir] at hnd
    | file f =>
      simp only [Node.isDir, Bool.false_eq_true, if_false]
      unfold remove_file
      rw [hlp]
    | symlink t =>
      simp only [Node.isDir, Bool.false_eq_true, if_false]
      unfold remove_file
      rw [hlp]
  · intro q h1 h2
    exact dremoveAt_locality p fs q h1 h2

/-- Claim C7 witness: removing a dangling symlink removes only the link
itself and reports `true`; the sibling file is untouched. -/
theorem C7_remove_all_optional_witness :
    remove_all_optional [("l", Node.symlink "gone"), ("t", Node.file ⟨0o644, [5]⟩)]
      ["l"] =
      (dremoveAt [("l", Node.symlink "gone"), ("t", Node.file ⟨0o644, [5]⟩)] ["l"],
        .ok true) ∧
    dlookupPath
      (dremoveAt [("l", Node.symlink "gone"), ("t", Node.file ⟨0o644, [5]⟩)] ["l"])
      ["t"] =
    dlookupPath [("l", Node.symlink "gone"), ("t", Node.file ⟨0o644, [5]⟩)] ["t"] := by
  refine ⟨?_, ?_⟩
  · exact (C7_remove_all_optional _ _).2.2.1 (Node.symlink "gone") rfl rfl
  · exact (C7_remove_all_optional
      [("l", Node.symlink "gone"), ("t", Node.file ⟨0o644, [5]⟩)] ["l"]).2.2.2
      ["t"] rfl rfl

/-- Claim C10: `ensure_dir_with` leaves an existing directory alone and
returns `Ok(false)`; errors with "Found non-directory" when a
non-directory entry occupies the path; creates the directory and
returns `Ok(true)` exactly when nothing occupies the path and the
parent resolves; and propagates any other creation error unchanged. -/
theorem C10_ensure_dir_with (fs : DirT) (bperm : Nat) :
    (∀ (p : List String) (m : Node), dlookupPath fs p = some m → m.isDir = true →
      ensure_dir_with fs p bperm = (fs, .ok false)) ∧
    (∀ (p : List String) (m : Node), dlookupPath fs p = some m → m.isDir = false →
      ensure_dir_with fs p bperm = (fs, .error ⟨.other, "Found non-directory"⟩)) ∧
    (∀ (q : List String) (nm : String) (d0 : DirT),
      dlookupPath fs (q ++ [nm]) = none → dopenDir fs q = .ok d0 →
      ensure_dir_with fs (q ++ [nm]) bperm =
        (dinsertAt fs (q ++ [nm]) (.dir bperm 0 []), .ok true) ∧
      dlookupPath (dinsertAt fs (q ++ [nm]) (.dir bperm 0 [])) (q ++ [nm]) =
        some (.dir bperm 0 [])) ∧
    (∀ (q : List String) (nm : String) (e : IoError),
      dlookupPath fs (q ++ [nm]) = none → dopenDir fs q = .error e →
      ensure_dir_with fs (q ++ [nm]) bperm = (fs, .error e)) := by
  refine ⟨?_, ?_, ?_, ?_⟩
  · intro p m h hdir
    have hp : p ≠ [] := by
      intro hh
      subst hh
      simp [dlookupPath] at h
    have hsm := lookupPath_smeta fs p m h
    unfold ensure_dir_with
    rw [create_dir_with_ne fs p bperm hp, h]
    simp only
    rw [hsm]
    simp [hdir]
  · intro p m h hnd
    have hp : p ≠ [] := by
      intro hh
      subst hh
      simp [dlookupPath] at h
    have hsm := lookupPath_smeta fs p m h
    unfold ensure_dir_with
    rw [create_dir_with_ne fs p bperm hp, h]
    simp only
    rw [hsm]
    simp [hnd]
  · intro q nm d0 h hod
    have hdl : (q ++ [nm]).dropLast = q := by simp
    constructor
    · unfold ensure_dir_with
      rw [create_dir_with_ne fs (q ++ [nm]) bperm (by simp), h]
      simp only
      rw [hdl, hod]
    · exact dinsertAt_lookupPath q fs d0 nm (.dir bperm 0 []) hod
  · intro q nm e h hod
    have hdl : (q ++ [nm]).dropLast = q := by simp
    have hk := dopenDir_error_kind q fs e hod
    unfold ensure_dir_with
    rw [create_dir_with_ne fs (q ++ [nm]) bperm (by simp), h]
    simp only
    rw [hdl, hod]
    simp [hk]

/-- Claim C10 witness: creating a fresh directory under an existing one
reports `Ok(true)`, and on an existing directory `Ok(false)`. -/
theorem C10_ensure_dir_with_witness :
    ensure_dir_with [("d", Node.dir 0o755 0 [])] (["d"] ++ ["x"]) 0o700 =
      (dinsertAt [("d", Node.dir 0o755 0 [])] (["d"] ++ ["x"])
        (.dir 0o700 0 []), .ok true) ∧
    ensure_dir_with [("d", Node.dir 0o755 0 [])] ["d"] 0o700 =
      ([("d", Node.dir 0o755 0 [])], .ok false) := by
  refine ⟨?_, ?_⟩
  · exact ((C10_ensure_dir_with [("d", Node.dir 0o755 0 [])] 0o700).2.2.1
      ["d"] "x" [] rfl rfl).1
  · exact (C10_ensure_dir_with [("d", Node.dir 0o755 0 [])] 0o700).1
      ["d"] (Node.dir 0o755 0 []) rfl rfl

theorem orl_exhaust {Fh : Type} (create : String → Except IoError Fh)
    (names : Nat → String)
    (h : ∀ s, ∃ msg, create s = .error ⟨.alreadyExists, msg⟩) :
    ∀ (k attempts : Nat), UMAX - attempts ≤ k →
    open_with_retry_loop create names attempts = .error too_many_tempfiles := by
  intro k
  induction k with
  | zero =>
    intro attempts hle
    have ha : min (attempts + 1) UMAX = UMAX := by
      simp only [UMAX] at *
      omega
    simp [open_with_retry_loop, ha]
  | succ k ih =>
    intro attempts hle
    by_cases ha : min (attempts + 1) UMAX = UMAX
    · simp [open_with_retry_loop, ha]
    · have ha2 : min (attempts + 1) UMAX = attempts + 1 := by
        simp only [UMAX] at *
        omega
      obtain ⟨msg, hc⟩ := h (names (attempts + 1))
      have step : open_with_retry_loop create names attempts =
          open_with_retry_loop create names (attempts + 1) := by
        rw [open_with_retry_loop.eq_def]
        simp only [ha2]
        rw [dif_neg (by rw [← ha2]; exact ha)]
        rw [hc]
        simp
      rw [step]
      apply ih
      simp only [UMAX] at *
      omega

theorem gnl_exhaust (lnk : String → Except Errno Unit) (names : Nat → String)
    (h : ∀ s, lnk s = .error .exist) :
    ∀ (k attempts : Nat), UMAX - attempts ≤ k →
    generate_name_in_loop lnk names attempts = .error too_many_tempfiles := by
  intro k
  induction k with
  | zero =>
    intro attempts hle
    have ha : min (attempts + 1) UMAX = UMAX := by
      simp only [UMAX] at *
      omega
    simp [generate_name_in_loop, ha]
  | succ k ih =>
    intro attempts hle
    by_cases ha : min (attempts + 1) UMAX = UMAX
    · simp [generate_name_in_loop, ha]
    · have ha2 : min (attempts + 1) UMAX = attempts + 1 := by
        simp only [UMAX] at *
        omega
      have step : generate_name_in_loop lnk names attempts =
          generate_name_in_loop lnk names (attempts + 1) := by
        rw [generate_name_in_loop.eq_def]
        simp only [ha2]
        rw [dif_neg (by rw [← ha2]; exact ha)]
        rw [h (names (attempts + 1))]
      rw [step]
      apply ih
      simp only [UMAX] at *
      omega

/-- Claim C9: the anonymous strategy needs no retry; a non-`OPNOTSUPP`
creation errno aborts immediately; under `OPNOTSUPP` the random-name
exclusive-create loop retries on `AlreadyExists` collisions only, is
total, and exhausting its finite `u32::MAX` bound surfaces the
`AlreadyExists`-kind "too many temporary files exist" error; a
non-collision error aborts at once and a successful create stops the
loop; the scratch-name assignment loop of `generate_name_in` behaves
the same under permanent `EEXIST`. -/
theorem C9_tempfile_retry (Fh : Type) :
    (∀ (f : Fh) (create : String → Except IoError Fh) (names : Nat → String),
      new_tempfile (.ok f) create names = .ok (f, none)) ∧
    (∀ (e : Errno) (create : String → Except IoError Fh) (names : Nat → String),
      e ≠ .opnotsupp → new_tempfile (.error e) create names = .error e.toIo) ∧
    (∀ (create : String → Except IoError Fh) (names : Nat → String),
      (∀ s, ∃ msg, create s = .error ⟨.alreadyExists, msg⟩) →
      open_with_retry_loop create names 0 = .error too_many_tempfiles ∧
      new_tempfile (.error .opnotsupp) create names = .error too_many_tempfiles ∧
      too_many_tempfiles.kind = ErrorKind.alreadyExists) ∧
    (∀ (create : String → Except IoError Fh) (names : Nat → String) (f : Fh),
      create (names 1) = .ok f →
      open_with_retry_loop create names 0 = .ok (f, names 1)) ∧
    (∀ (create : String → Except IoError Fh) (names : Nat → String) (e : IoError),
      create (names 1) = .error e → e.kind ≠ ErrorKind.alreadyExists →
      open_with_retry_loop create names 0 = .error e) ∧
    (∀ (lnk : String → Except Errno Unit) (names : Nat → String),
      (∀ s, lnk s = .error .exist) →
      generate_name_in lnk names = .error too_many_tempfiles) := by
  refine ⟨?_, ?_, ?_, ?_, ?_, ?_⟩
  · intro f create names
    rfl
  · intro e create names he
    cases e with
    | opnotsupp => exact absurd rfl he
    | exist => rfl
    | oth k m => rfl
  · intro create names h
    have hloop := orl_exhaust create names h UMAX 0 (by omega)
    refine ⟨hloop, ?_, rfl⟩
    unfold new_tempfile
    rw [hloop]
  · intro create names f hc
    rw [open_with_retry_loop.eq_def]
    have ha2 : min (0 + 1) UMAX = 1 := by simp [UMAX]
    simp only [ha2]
    rw [dif_neg (by simp [UMAX])]
    rw [hc]
  · intro create names e hc hk
    rw [open_with_retry_loop.eq_def]
    have ha2 : min (0 + 1) UMAX = 1 := by simp [UMAX]
    simp only [ha2]
    rw [dif_neg (by simp [UMAX])]
    rw [hc]
    simp [hk]
  · intro lnk names h
    exact gnl_exhaust lnk names h UMAX 0 (by omega)

/-- Claim C9 witness: a creator that always collides makes the
fallback loop of `new_tempfile` surface "too many temporary files
exist". -/
theorem C9_tempfile_retry_witness :
    @new_tempfile Unit (.error .opnotsupp)
      (fun _ => .error ⟨.alreadyExists, "File exists"⟩) (fun _ => "t") =
      .error too_many_tempfiles :=
  ((C9_tempfile_retry Unit).2.2.1 (fun _ => .error ⟨.alreadyExists, "File exists"⟩)
    (fun _ => "t") (fun _ => ⟨"File exists", rfl⟩)).2.1

/-- Claim C8: every `getxattr`/`setxattr`/`listxattrs` call on an
absolute path or a path with a `..` component fails with the
`PermissionDenied`-kind "a path led outside of the filesystem" error
before any attribute syscall is attempted (the result is independent of
the syscall oracle); a relative, uplink-free path validates and the
synthesized lookup path is `/proc/self/fd/<fd>/<path>`, to which the
syscall is applied. -/
theorem C8_xattr_path_validation :
    (∀ (fd : Nat) (p : RPath),
      (p.absolute = true ∨ Comp.parentDir ∈ p.comps) →
      validate_relpath_no_uplinks p = .error escape_attempt ∧
      (∀ sysGet key, impl_getxattr sysGet fd p key = .error escape_attempt) ∧
      (∀ sysSet key v, impl_setxattr sysSet fd p key v = .error escape_attempt) ∧
      (∀ sysList, impl_listxattrs sysList fd p = .error escape_attempt)) ∧
    escape_attempt = ⟨.permissionDenied, "a path led outside of the filesystem"⟩ ∧
    (∀ (fd : Nat) (p : RPath), p.absolute = false → Comp.parentDir ∉ p.comps →
      proc_self_path fd p = .ok ⟨true, [.normal "proc", .normal "self",
        .normal "fd", .normal (toString fd)] ++ p.comps⟩ ∧
      (∀ sysGet key, impl_getxattr sysGet fd p key =
        sysGet ⟨true, [.normal "proc", .normal "self", .normal "fd",
          .normal (toString fd)] ++ p.comps⟩ key) ∧
      (∀ sysSet key v, impl_setxattr sysSet fd p key v =
        sysSet ⟨true, [.normal "proc", .normal "self", .normal "fd",
          .normal (toString fd)] ++ p.comps⟩ key v) ∧
      (∀ sysList, impl_listxattrs sysList fd p =
        sysList ⟨true, [.normal "proc", .normal "self", .normal "fd",
          .normal (toString fd)] ++ p.comps⟩)) := by
  refine ⟨?_, rfl, ?_⟩
  · intro fd p h
    have hc : (p.absolute || p.comps.any (fun c => c = Comp.parentDir)) = true := by
      rcases h with h | h
      · simp [h]
      · simp only [Bool.or_eq_true, List.any_eq_true]
        exact Or.inr ⟨Comp.parentDir, h, by simp⟩
    have hv : validate_relpath_no_uplinks p = .error escape_attempt := by
      unfold validate_relpath_no_uplinks
      simp [hc]
    refine ⟨hv, ?_, ?_, ?_⟩
    · intro sysGet key
      unfold impl_getxattr proc_self_path
      rw [hv]
    · intro sysSet key v
      unfold impl_setxattr proc_self_path
      rw [hv]
    · intro sysList
      unfold impl_listxattrs proc_self_path
      rw [hv]
  · intro fd p h1 h2
    have hany : p.comps.any (fun c => c = Comp.parentDir) = false := by
      cases hany : p.comps.any (fun c => c = Comp.parentDir) with
      | false => rfl
      | true =>
        exfalso
        rw [List.any_eq_true] at hany
        obtain ⟨c, hcmem, hcp⟩ := hany
        simp only [decide_eq_true_eq] at hcp
        subst hcp
        exact h2 hcmem
    have hv : validate_relpath_no_uplinks p = .ok p := by
      unfold validate_relpath_no_uplinks
      simp [h1, hany]
    have hp : proc_self_path fd p = .ok ⟨true, [.normal "proc", .normal "self",
        .normal "fd", .normal (toString fd)] ++ p.comps⟩ := by
      unfold proc_self_path
      rw [hv]
    refine ⟨hp, ?_, ?_, ?_⟩
    · intro sysGet key
      unfold impl_getxattr
      rw [hp]
    · intro sysSet key v
      unfold impl_setxattr
      rw [hp]
    · intro sysList
      unfold impl_listxattrs
      rw [hp]

/-- Claim C8 witness: a `..`-containing path is rejected with the
escape error regardless of the oracle, and a plain relative path
synthesizes the `/proc/self/fd` lookup path. -/
theorem C8_xattr_path_validation_witness :
    impl_getxattr (fun _ _ => .ok none) 3
      ⟨false, [Comp.parentDir, Comp.normal "etc"]⟩ "user.a" =
      .error escape_attempt ∧
    proc_self_path 3 ⟨false, [Comp.normal "f"]⟩ =
      .ok ⟨true, [.normal "proc", .normal "self", .normal "fd",
        .normal (toString 3)] ++ [Comp.normal "f"]⟩ := by
  refine ⟨?_, ?_⟩
  · exact (C8_xattr_path_validation.1 3 ⟨false, [Comp.parentDir, Comp.normal "etc"]⟩
      (Or.inr (by simp))).2.1 (fun _ _ => .ok none) "user.a"
  · exact (C8_xattr_path_validation.2.2 3 ⟨false, [Comp.normal "f"]⟩ rfl
      (by simp)).1

/-- Claim C6 (amended): `emplace()` onto an existing destination entry
fails with the `AlreadyExists`-kind `EEXIST` error and leaves the
destination entry untouched (only the scratch name, if any, is cleaned
up), whereas `replace()` in the same situation succeeds and atomically
overwrites the destination - provided the existing entry is not a
directory and its permissions metadata resolves (renaming a file over a
directory fails, and a symlink loop at the destination propagates the
metadata error). -/
theorem C6_emplace_vs_replace (d : DirT) (t : Temp) (name scratch : String)
    (eN : Node) (pm : Nat)
    (h1 : dlookup d name = some eN)
    (h2 : eN.isDir = false)
    (h3 : default_permissions d name = .ok pm)
    (h4 : dlookup d scratch = none)
    (h5 : scratch ≠ name)
    (h6 : ∀ tn, t.tempname = some tn → dlookup d tn = none ∧ tn ≠ name) :
    emplace_run d t name = (tempfile_drop d t, .error Errno.exist.toIo) ∧
    dlookup (emplace_run d t name).1 name = some eN ∧
    (replace_run d t scratch name).2 = .ok () ∧
    dlookup (replace_run d t scratch name).1 name = some (.file ⟨pm, t.data⟩) := by
  have hemp : emplace_run d t name = (tempfile_drop d t, .error Errno.exist.toIo) := by
    unfold emplace_run try_emplace_to
    rw [h1]
  have hlk : dlookup (tempfile_drop d t) name = some eN := by
    unfold tempfile_drop
    cases ht : t.tempname with
    | none => exact h1
    | some tn =>
      obtain ⟨_, htn⟩ := h6 tn ht
      rw [dlookup_dremove_ne d tn name (fun hh => htn hh.symm)]
      exact h1
  refine ⟨hemp, by rw [hemp]; exact hlk, ?_, ?_⟩
  all_goals
    unfold replace_run
    rw [h3]
    unfold replace_with_perms_run
    cases ht : t.tempname with
    | some tn =>
      simp only
      have hlk2 : dlookup d name = some eN := h1
      rw [hlk2]
      cases eN with
      | dir p v es => simp [Node.isDir] at h2
      | file f => simp [dlookup_dinsert_self]
      | symlink tg => simp [dlookup_dinsert_self]
    | none =>
      simp only
      have hne : name ≠ scratch := fun hh => h5 hh.symm
      rw [dlookup_dinsert_ne d scratch name _ hne, h1]
      cases eN with
      | dir p v es => simp [Node.isDir] at h2
      | file f => simp [dlookup_dinsert_self]
      | symlink tg => simp [dlookup_dinsert_self]

/-- Claim C6 witness: with an existing plain file at the destination,
`emplace` fails with `EEXIST` leaving it in place, and `replace`
overwrites it with the tempfile's content under the inherited mode. -/
theorem C6_emplace_vs_replace_witness :
    emplace_run [("n", Node.file ⟨0o644, [1]⟩)] ⟨0o600, [9], none⟩ "n" =
      (tempfile_drop [("n", Node.file ⟨0o644, [1]⟩)] ⟨0o600, [9], none⟩,
        .error Errno.exist.toIo) ∧
    dlookup (emplace_run [("n", Node.file ⟨0o644, [1]⟩)] ⟨0o600, [9], none⟩ "n").1
      "n" = some (Node.file ⟨0o644, [1]⟩) ∧
    (replace_run [("n", Node.file ⟨0o644, [1]⟩)] ⟨0o600, [9], none⟩ "s" "n").2 =
      .ok () ∧
    dlookup (replace_run [("n", Node.file ⟨0o644, [1]⟩)] ⟨0o600, [9], none⟩
      "s" "n").1 "n" = some (.file ⟨0o644, [9]⟩) :=
  C6_emplace_vs_replace [("n", Node.file ⟨0o644, [1]⟩)] ⟨0o600, [9], none⟩ "n" "s"
    (Node.file ⟨0o644, [1]⟩) 0o644 rfl rfl rfl rfl (by decide)
    (fun tn h => nomatch h)

/-- Claim C6 counterexample: with an existing directory at the
destination name, `replace()` does not succeed - the rename fails -
refuting the unconditional "replace() in the same situation succeeds
and atomically overwrites the destination". -/
theorem C6_counterexample :
    dlookup [("n", Node.dir 0o755 0 [])] "n" = some (Node.dir 0o755 0 []) ∧
    (replace_run [("n", Node.dir 0o755 0 [])] ⟨0o600, [9], none⟩ "s" "n").2 =
      .error ⟨.other, "Is a directory"⟩ :=
  ⟨rfl, rfl⟩

theorem atomic_replace_with_eq (E T : Type) (liftE : IoError → E) (anon : Bool)
    (s1 s2 : String) (fs : DirT) (destname parent : List String) (name : String)
    (m : Option Node) (d : DirT) (f : FileObj → Except E (T × FileObj))
    (h1 : arw_subdir destname = .ok (parent, name))
    (h2 : dopenDir fs parent = .ok d)
    (h3 : symlink_metadata_at d destname = .ok m) :
    atomic_replace_with liftE anon s1 s2 fs destname f =
      match f (arw_temp_fo m) with
      | .error e =>
        (dupdateAt fs parent (tempfile_drop (temp_new anon s1 d).1
          ⟨(arw_temp_fo m).perm, (arw_temp_fo m).data,
            (temp_new anon s1 d).2.tempname⟩), .error e)
      | .ok (r, tf) =>
        match temp_replace (temp_new anon s1 d).1
            ⟨tf.perm, tf.data, (temp_new anon s1 d).2.tempname⟩ s2 name with
        | (d2, .error e) => (dupdateAt fs parent d2, .error (liftE e))
        | (d2, .ok ()) => (dupdateAt fs parent d2, .ok r) := by
  unfold atomic_replace_with
  rw [h1]
  dsimp only
  rw [h2]
  dsimp only
  rw [h3]

/-- Claim C2: if the writer closure passed to `atomic_replace_with`
returns an error (hypotheses: the pre-closure steps reach the closure,
and the fallback scratch name is fresh), the whole filesystem - in
particular the destination's prior content or absence - is unchanged,
the temp file is abandoned without a trace, and the closure's original
error is the one propagated, never a cleanup error. -/
theorem C2_atomic_replace_writer_error (E T : Type) (liftE : IoError → E)
    (anon : Bool) (s1 s2 : String) (fs : DirT) (destname parent : List String)
    (name : String) (m : Option Node) (d : DirT)
    (f : FileObj → Except E (T × FileObj)) (e : E)
    (h1 : arw_subdir destname = .ok (parent, name))
    (h2 : dopenDir fs parent = .ok d)
    (h3 : symlink_metadata_at d destname = .ok m)
    (h4 : f (arw_temp_fo m) = .error e)
    (h5 : anon = false → dlookup d s1 = none) :
    atomic_replace_with liftE anon s1 s2 fs destname f = (fs, .error e) := by
  rw [atomic_replace_with_eq E T liftE anon s1 s2 fs destname parent name m d f
    h1 h2 h3, h4]
  cases anon with
  | true =>
    simp only [temp_new, if_true, tempfile_drop]
    rw [dupdateAt_self fs parent d h2]
  | false =>
    simp only [temp_new, Bool.false_eq_true, if_false, tempfile_drop]
    rw [dremove_dinsert_fresh d s1 _ (h5 rfl)]
    rw [dupdateAt_self fs parent d h2]

/-- Claim C2 witness: a closure failing with a custom error leaves a
one-file directory exactly as it was and propagates that error. -/
theorem C2_atomic_replace_writer_error_witness :
    @atomic_replace_with IoError Unit id true "s1" "s2"
      [("f", Node.file ⟨0o644, [1]⟩)] ["f"]
      (fun _ => .error ⟨.other, "writer failed"⟩) =
      ([("f", Node.file ⟨0o644, [1]⟩)], .error ⟨.other, "writer failed"⟩) :=
  C2_atomic_replace_writer_error IoError Unit id true "s1" "s2"
    [("f", Node.file ⟨0o644, [1]⟩)] ["f"] [] "f"
    (some (Node.file ⟨0o644, [1]⟩)) [("f", Node.file ⟨0o644, [1]⟩)]
    (fun _ => .error ⟨.other, "writer failed"⟩) ⟨.other, "writer failed"⟩
    rfl rfl rfl rfl (fun hh => nomatch hh)

/-- Claim C3: whenever `atomic_write_with_perms(name, C, P)` returns
success, the file at the destination holds exactly the bytes `C` under
the permissions `P`. -/
theorem C3_atomic_write_with_perms (anon : Bool) (s1 s2 : String) (fs : DirT)
    (destname : List String) (contents : List Nat) (perms : Nat)
    (h : (atomic_write_with_perms anon s1 s2 fs destname contents perms).2 =
      .ok ()) :
    dlookupPath (atomic_write_with_perms anon s1 s2 fs destname contents perms).1
      destname = some (.file ⟨perms, contents⟩) := by
  unfold atomic_write_with_perms at h ⊢
  cases hsub : arw_subdir destname with
  | error e0 =>
    unfold atomic_replace_with at h
    rw [hsub] at h
    dsimp only at h
    simp at h
  | ok pn =>
    obtain ⟨parent, name⟩ := pn
    have hdst := arw_subdir_eq destname parent name hsub
    cases hod : dopenDir fs parent with
    | error e0 =>
      unfold atomic_replace_with at h
      rw [hsub] at h
      dsimp only at h
      rw [hod] at h
      dsimp only at h
      simp at h
    | ok d =>
      cases hsm : symlink_metadata_at d destname with
      | error e0 =>
        unfold atomic_replace_with at h
        rw [hsub] at h
        dsimp only at h
        rw [hod] at h
        dsimp only at h
        rw [hsm] at h
        dsimp only at h
        simp at h
      | ok m =>
        rw [atomic_replace_with_eq IoError Unit id anon s1 s2 fs destname parent
          name m d _ hsub hod hsm] at h ⊢
        have hcl : awwp_closure contents perms (arw_temp_fo m) =
            .ok ((), ⟨perms, contents⟩) := rfl
        rw [hcl] at h ⊢
        dsimp only at h ⊢
        cases anon with
        | true =>
          simp only [temp_new, if_true] at h ⊢
          unfold temp_replace at h ⊢
          dsimp only at h ⊢
          cases hlk : dlookup (dinsert d s2 (.file ⟨perms, contents⟩)) name with
          | none =>
            dsimp only at h ⊢
            rw [hdst, dlookupPath_dupdateAt fs parent d _ name hod]
            exact dlookup_dinsert_self _ _ _
          | some nn =>
            cases nn with
            | dir pm dv es =>
              rw [hlk] at h
              dsimp only at h
              simp at h
            | file ff =>
              dsimp only at h ⊢
              rw [hdst, dlookupPath_dupdateAt fs parent d _ name hod]
              exact dlookup_dinsert_self _ _ _
            | symlink tg =>
              dsimp only at h ⊢
              rw [hdst, dlookupPath_dupdateAt fs parent d _ name hod]
              exact dlookup_dinsert_self _ _ _
        | false =>
          simp only [temp_new, Bool.false_eq_true, if_false] at h ⊢
          unfold temp_replace at h ⊢
          dsimp only at h ⊢
          cases hlk : dlookup (dinsert d s1 (.file ⟨0o600, []⟩)) name with
          | none =>
            dsimp only at h ⊢
            rw [hdst, dlookupPath_dupdateAt fs parent d _ name hod]
            exact dlookup_dinsert_self _ _ _
          | some nn =>
            cases nn with
            | dir pm dv es =>
              rw [hlk] at h
              dsimp only at h
              simp at h
            | file ff =>
              dsimp only at h ⊢
              rw [hdst, dlookupPath_dupdateAt fs parent d _ name hod]
              exact dlookup_dinsert_self _ _ _
            | symlink tg =>
              dsimp only at h ⊢
              rw [hdst, dlookupPath_dupdateAt fs parent d _ name hod]
              exact dlookup_dinsert_self _ _ _

/-- Claim C3 witness: atomically writing `[3, 4]` with mode `0o640`
into an empty directory yields exactly that file. -/
theorem C3_atomic_write_with_perms_witness :
    dlookupPath (atomic_write_with_perms true "s1" "s2" [] ["f"] [3, 4] 0o640).1
      ["f"] = some (.file ⟨0o640, [3, 4]⟩) :=
  C3_atomic_write_with_perms true "s1" "s2" [] ["f"] [3, 4] 0o640 rfl

/-- Claim C4: evaluation at the failing input.  The destination `a/b`
holds a plain file with mode `0o644`, yet after a successful
`atomic_replace_with` without a permission override the replacement
carries the temp-file creation mode `0o600`, not the prior `0o644`:
the `symlink_metadata_optional` query is issued with the full
destination path relative to the already-opened parent subdirectory
(looking at `a/a/b`), so the existing file's permissions are never
found, contradicting the function's own documentation that an existing
regular file's access permissions are preserved. -/
theorem C4_parented_dest_perms_not_preserved :
    dlookupPath fsA ["a", "b"] = some (.file ⟨0o644, [1]⟩) ∧
    (atomic_replace_with id true "s1" "s2" fsA ["a", "b"] write2_closure).2 =
      .ok () ∧
    dlookupPath (atomic_replace_with id true "s1" "s2" fsA ["a", "b"]
      write2_closure).1 ["a", "b"] = some (.file ⟨0o600, [2]⟩) ∧
    (0o600 : Nat) ≠ 0o644 :=
  ⟨rfl, rfl, rfl, by decide⟩

theorem obl_confine : ∀ (fuel : Nat) (amb : RNode) (root : List String)
    (rest : List Comp) (cur : List String) (res : List String),
    open_beneath_loop amb root fuel cur rest = .ok res →
    pathLeads root res = true := by
  intro fuel
  induction fuel using Nat.strong_induction_on with
  | _ fuel ihf =>
    intro amb root rest
    induction rest with
    | nil =>
      intro cur res h
      rw [open_beneath_loop.eq_1] at h
      simp only [Except.ok.injEq] at h
      subst h
      exact pathLeads_append root cur
    | cons c rest ihr =>
      intro cur res h
      cases c with
      | curDir =>
        rw [open_beneath_loop.eq_2] at h
        exact ihr cur res h
      | parentDir =>
        rw [open_beneath_loop.eq_3] at h
        exact ihr cur.dropLast res h
      | normal s =>
        cases rest with
        | nil =>
          rw [open_beneath_loop.eq_4] at h
          cases hn : rnodeAt amb (root ++ cur ++ [s]) with
          | none =>
            rw [hn] at h
            simp at h
          | some nd =>
            rw [hn] at h
            cases nd with
            | dir es =>
              dsimp only at h
              exact ihr (cur ++ [s]) res h
            | file data =>
              dsimp only at h
              simp only [Except.ok.injEq] at h
              subst h
              rw [List.append_assoc]
              exact pathLeads_append root (cur ++ [s])
            | magiclink =>
              dsimp only at h
              simp at h
            | symlink tgt =>
              cases fuel with
              | zero =>
                dsimp only at h
                simp at h
              | succ fuel1 =>
                dsimp only at h
                cases habs : tgt.absolute with
                | true =>
                  rw [habs] at h
                  simp only [if_true] at h
                  exact ihf fuel1 (by omega) amb root (tgt.comps ++ []) [] res h
                | false =>
                  rw [habs] at h
                  simp only [Bool.false_eq_true, if_false] at h
                  exact ihf fuel1 (by omega) amb root (tgt.comps ++ []) cur res h
        | cons c2 r2 =>
          rw [open_beneath_loop.eq_5] at h
          cases hn : rnodeAt amb (root ++ cur ++ [s]) with
          | none =>
            rw [hn] at h
            simp at h
          | some nd =>
            rw [hn] at h
            cases nd with
            | dir es =>
              dsimp only at h
              exact ihr (cur ++ [s]) res h
            | file data =>
              dsimp only at h
              simp at h
            | magiclink =>
              dsimp only at h
              simp at h
            | symlink tgt =>
              cases fuel with
              | zero =>
                dsimp only at h
                simp at h
              | succ fuel1 =>
                dsimp only at h
                cases habs : tgt.absolute with
                | true =>
                  rw [habs] at h
                  simp only [if_true] at h
                  exact ihf fuel1 (by omega) amb root (tgt.comps ++ c2 :: r2) [] res h
                | false =>
                  rw [habs] at h
                  simp only [Bool.false_eq_true, if_false] at h
                  exact ihf fuel1 (by omega) amb root (tgt.comps ++ c2 :: r2) cur res h

/-- Claim C5 (amended): resolution through `RootDir::open` is confined
to the declared root - every successful open yields a path below the
root.  Symlinks, absolute ones included, are reinterpreted relative to
the root (the absolute symlink `/etc/auth.json` to `/usr/lib/auth.json`
opens the in-root file and reads its content), magic/procfs-style
indirection links are rejected, and a symlink whose dot-dot target
would climb above the root is clamped at the root rather than failing:
it resolves within the root (failing only if the clamped target does
not exist there). -/
theorem C5_rootdir_confinement :
    (∀ (amb : RNode) (root : List String) (fuel : Nat) (cur : List String)
      (rest : List Comp) (res : List String),
      open_beneath_loop amb root fuel cur rest = .ok res →
      pathLeads root res = true) ∧
    rootdir_open amb5 ["td"] ⟨true, [.normal "etc", .normal "auth.json"]⟩ =
      .ok ["td", "usr", "lib", "auth.json"] ∧
    rootdir_read amb5 ["td"] ⟨true, [.normal "etc", .normal "auth.json"]⟩ =
      .ok [7] ∧
    rootdir_open amb5 ["td"] ⟨false, [.normal "mag"]⟩ =
      .error ⟨.other, "Too many levels of symbolic links"⟩ ∧
    rootdir_open amb5 ["td"] ⟨false, [.normal "lnk"]⟩ = .ok ["td", "x"] := by
  refine ⟨fun amb root fuel cur rest res h =>
    obl_confine fuel amb root rest cur res h, ?_, ?_, ?_, ?_⟩
  · simp [rootdir_open, open_beneath_loop, amb5, rnodeAt, rlookup]
  · simp [rootdir_read, rootdir_open, open_beneath_loop, amb5, rnodeAt, rlookup]
  · simp [rootdir_open, open_beneath_loop, amb5, rnodeAt, rlookup]
  · simp [rootdir_open, open_beneath_loop, amb5, rnodeAt, rlookup]

/-- Claim C5 witness: the successful absolute-symlink resolution indeed
lands below the root. -/
theorem C5_rootdir_confinement_witness :
    pathLeads ["td"] ["td", "usr", "lib", "auth.json"] = true :=
  C5_rootdir_confinement.1 amb5 ["td"] 40 []
    [.normal "etc", .normal "auth.json"] ["td", "usr", "lib", "auth.json"]
    C5_rootdir_confinement.2.1

/-- Claim C5 counterexample: the symlink `lnk` targets `../../x`, which
climbs above the root at ambient path `td`, yet `RootDir::open`
succeeds - `RESOLVE_IN_ROOT` clamps the `..` components at the root and
resolves to the in-root file `x` - refuting the claim's "a symlink
whose target escapes the root fails". -/
theorem C5_counterexample :
    rnodeAt amb5 ["td", "lnk"] =
      some (.symlink ⟨false, [.parentDir, .parentDir, .normal "x"]⟩) ∧
    rootdir_open amb5 ["td"] ⟨false, [.normal "lnk"]⟩ = .ok ["td", "x"] := by
  refine ⟨rfl, ?_⟩
  simp [rootdir_open, open_beneath_loop, amb5, rnodeAt, rlookup]

theorem walk_count_aux : ∀ (k : Nat) (entries : DirT), treeSize entries ≤ k →
    ∀ (dev : Nat) (path : List String) (s : Nat),
    walk_entries count_cb cfg0 dev path entries s =
      (s + (countType FileType.dir entries + countType FileType.file entries +
        countType FileType.symlink entries), .ok ()) := by
  intro k
  induction k with
  | zero =>
    intro entries hsz dev path s
    cases entries with
    | nil => simp [walk_entries.eq_1, countType]
    | cons e rest =>
      exfalso
      obtain ⟨name, node⟩ := e
      have h1 := nodeSize_pos node
      simp [treeSize] at hsz
      omega
  | succ k ih =>
    intro entries hsz dev path s
    cases entries with
    | nil => simp [walk_entries.eq_1, countType]
    | cons e rest =>
      obtain ⟨name, node⟩ := e
      have hszr : treeSize rest ≤ k := by
        have := nodeSize_pos node
        simp only [treeSize] at hsz
        omega
      rw [walk_entries.eq_2]
      cases node with
      | file f =>
        dsimp only [count_cb, Node.typeOf]
        rw [if_pos (by decide : FileType.file ≠ FileType.dir)]
        rw [if_neg (by decide : ¬ (CtrlFlow.Continue = CtrlFlow.Break))]
        rw [ih rest hszr dev path (s + 1)]
        simp only [countType, Node.typeOf]
        rw [Prod.mk.injEq]
        refine ⟨by simp; omega, rfl⟩
      | symlink t =>
        dsimp only [count_cb, Node.typeOf]
        rw [if_pos (by decide : FileType.symlink ≠ FileType.dir)]
        rw [if_neg (by decide : ¬ (CtrlFlow.Continue = CtrlFlow.Break))]
        rw [ih rest hszr dev path (s + 1)]
        simp only [countType, Node.typeOf]
        rw [Prod.mk.injEq]
        refine ⟨by simp; omega, rfl⟩
      | dir pm dv centries =>
        have hszc : treeSize centries ≤ k := by
          simp only [treeSize, nodeSize] at hsz
          omega
        dsimp only [count_cb, Node.typeOf]
        rw [if_neg (by decide : ¬ (FileType.dir ≠ FileType.dir))]
        rw [if_neg (by decide : ¬ (CtrlFlow.Continue = CtrlFlow.Break))]
        rw [if_neg (by simp [cfg0])]
        rw [show sortOpt cfg0 centries = centries from rfl]
        rw [ih centries hszc dv (path ++ [name]) (s + 1)]
        dsimp only
        rw [ih rest hszr dev path _]
        simp only [countType, Node.typeOf]
        rw [Prod.mk.injEq]
        refine ⟨by simp; omega, rfl⟩

theorem walk_breakdirs_aux (dev : Nat) (path : List String) :
    ∀ (entries : DirT) (s : List (List String)),
    walk_entries record_breakdirs_cb cfg0 dev path entries s =
      (s ++ entries.map (fun en => path ++ [en.1]), .ok ()) := by
  intro entries
  induction entries with
  | nil =>
    intro s
    simp [walk_entries.eq_1]
  | cons e rest ih =>
    intro s
    obtain ⟨name, node⟩ := e
    rw [walk_entries.eq_2]
    cases node with
    | file f =>
      dsimp only [record_breakdirs_cb, Node.typeOf]
      rw [if_neg (by decide : ¬ (FileType.file = FileType.dir))]
      rw [if_pos (by decide : FileType.file ≠ FileType.dir)]
      rw [if_neg (by decide : ¬ (CtrlFlow.Continue = CtrlFlow.Break))]
      rw [ih (s ++ [path ++ [name]])]
      simp
    | symlink t =>
      dsimp only [record_breakdirs_cb, Node.typeOf]
      rw [if_neg (by decide : ¬ (FileType.symlink = FileType.dir))]
      rw [if_pos (by decide : FileType.symlink ≠ FileType.dir)]
      rw [if_neg (by decide : ¬ (CtrlFlow.Continue = CtrlFlow.Break))]
      rw [ih (s ++ [path ++ [name]])]
      simp
    | dir pm dv centries =>
      dsimp only [record_breakdirs_cb, Node.typeOf]
      rw [if_pos (by decide : FileType.dir = FileType.dir)]
      rw [if_neg (by decide : ¬ (FileType.dir ≠ FileType.dir))]
      rw [if_pos (by decide : CtrlFlow.Break = CtrlFlow.Break)]
      rw [ih (s ++ [path ++ [name]])]
      simp

/-- Claim C1 (amended): with the default configuration, (i) a walk whose
callback always continues visits exactly N+M+K entries - every
directory, file and symlink of the tree once; (ii) a callback breaking
on every directory visits exactly the current level's entries in order
- `Break` on a directory skips only the descent, its siblings are still
visited; (iii) `Break` on a non-directory entry ends the current
directory's iteration normally - the remaining siblings in that
directory are skipped and the level returns `Ok`; (iv) a parent whose
child directory's walk returned `Ok` - as it does after an inner
non-directory `Break` - continues with the entries after that child, so
a non-directory `Break` aborts the whole walk only from the top level,
not from inside a subdirectory. -/
theorem C1_walk_break_semantics :
    (∀ (dev : Nat) (entries : DirT) (s : Nat),
      walk count_cb cfg0 dev entries s =
        (s + (countType FileType.dir entries + countType FileType.file entries +
          countType FileType.symlink entries), .ok ())) ∧
    (∀ (dev : Nat) (path : List String) (entries : DirT)
      (s : List (List String)),
      walk_entries record_breakdirs_cb cfg0 dev path entries s =
        (s ++ entries.map (fun en => path ++ [en.1]), .ok ())) ∧
    (∀ (σw ε : Type) (cb : σw → WalkEnt → σw × Except ε CtrlFlow) (dev : Nat)
      (path : List String) (name : String) (node : Node) (rest : DirT)
      (s s1 : σw),
      node.typeOf ≠ FileType.dir →
      cb s ⟨path ++ [name], name, node.typeOf⟩ = (s1, .ok CtrlFlow.Break) →
      walk_entries cb cfg0 dev path ((name, node) :: rest) s = (s1, .ok ())) ∧
    (∀ (σw ε : Type) (cb : σw → WalkEnt → σw × Except ε CtrlFlow) (dev : Nat)
      (path : List String) (name : String) (pm dv : Nat) (centries rest : DirT)
      (s s1 s2 : σw),
      cb s ⟨path ++ [name], name, FileType.dir⟩ = (s1, .ok CtrlFlow.Continue) →
      walk_entries cb cfg0 dv (path ++ [name]) centries s1 = (s2, .ok ()) →
      walk_entries cb cfg0 dev path ((name, .dir pm dv centries) :: rest) s =
        walk_entries cb cfg0 dev path rest s2) := by
  refine ⟨?_, ?_, ?_, ?_⟩
  · intro dev entries s
    exact walk_count_aux (treeSize entries) entries le_rfl dev [] s
  · intro dev path entries s
    exact walk_breakdirs_aux dev path entries s
  · intro σw ε cb dev path name node rest s s1 hnd hcb
    rw [walk_entries.eq_2, hcb]
    dsimp only
    rw [if_pos hnd]
    rw [if_pos rfl]
  · intro σw ε cb dev path name pm dv centries rest s s1 s2 hcb hchild
    rw [walk_entries.eq_2]
    dsimp only [Node.typeOf]
    rw [hcb]
    dsimp only
    rw [if_neg (by decide : ¬ (FileType.dir ≠ FileType.dir))]
    rw [if_neg (by decide : ¬ (CtrlFlow.Continue = CtrlFlow.Break))]
    rw [if_neg (by simp [cfg0])]
    rw [show sortOpt cfg0 centries = centries from rfl]
    rw [hchild]

/-- Claim C1 witness: breaking on a non-directory entry skips the rest
of the current level and the level returns `Ok`. -/
theorem C1_walk_break_semantics_witness :
    walk_entries (breakon_cb ["z"]) cfg0 0 []
      [("z", Node.file fo1), ("w", Node.file fo1)] [] = ([["z"]], .ok ()) :=
  C1_walk_break_semantics.2.2.1 (List (List String)) IoError (breakon_cb ["z"])
    0 [] "z" (Node.file fo1) [("w", Node.file fo1)] [] [["z"]]
    (by decide) (by simp [breakon_cb, Node.typeOf])

/-- Claim C1 counterexample: the callback breaks on the non-directory
entry `a/f` deep in the tree, yet the walk does not halt - the sibling
`b` of the ancestor directory `a` is still visited afterwards, refuting
"if the callback returns Break on a non-directory entry, the entire
walk halts immediately and no further entry anywhere in the tree is
visited". -/
theorem C1_counterexample :
    dlookupPath T1 ["a", "f"] = some (.file fo1) ∧
    walk (breakon_cb ["a", "f"]) cfg0 0 T1 [] =
      ([["a"], ["a", "f"], ["b"]], .ok ()) ∧
    ["b"] ∈ (walk (breakon_cb ["a", "f"]) cfg0 0 T1 []).1 := by
  refine ⟨rfl, ?_, ?_⟩
  · simp [walk, walk_inner, cfg0, sortOpt, walk_entries.eq_def, breakon_cb, T1,
      Node.typeOf, fo1]
  · have hw : walk (breakon_cb ["a", "f"]) cfg0 0 T1 [] =
        ([["a"], ["a", "f"], ["b"]], .ok ()) := by
      simp [walk, walk_inner, cfg0, sortOpt, walk_entries.eq_def, breakon_cb, T1,
        Node.typeOf, fo1]
    rw [hw]
    simp
